import Mathlib

/-!
Shallow embedding of the inventory snapshot/restore mechanism of
`src/utilities.js` (`saveInventory` / `loadInventory`).

Modelling choices, each traceable to the source:
* An `ItemStack` is modelled by `Item`.  `enchantable`/`durability` are
  `Option`-valued: `none` means the item type lacks the capability
  (`hasComponent(...)` is false / `getComponent(...)` is `undefined`),
  `some` carries the component state (enchantment list, damage).
  `extraProps` records expando properties added by `item[key] = v`
  assignments for keys that are not native `ItemStack` fields.
* Dynamic properties (`storage.setDynamicProperty` / `getDynamicProperty`)
  form a `Store : String → Option PVal`.  A stored string either parses
  as a JSON array of slot descriptors (`PVal.jarr`) or fails to parse
  (`PVal.malformed`); `JSON.stringify` of the descriptor list produced by
  `saveInventory` always yields the `jarr` form (stringify/parse of plain
  data round-trips).
* JS exceptions (`new ItemStack(badId)`, `undefined.enchantable`,
  `container.setItem` out of range, `JSON.parse` failure,
  `getComponent(...)` of a missing capability followed by a member
  access) are modelled with `Except`, the error payload carrying the
  actor state at the moment of the throw.
* JS truthiness is modelled where the source branches on it:
  `if (equipment.nameTag)` — a string is truthy iff non-empty;
  `if (!data)` — `null`/`undefined` are falsy;
  `if (data.components.enchantable)` — an array (even empty) is truthy,
  a missing field is falsy;
  `if (data.components.durability)` — a number is truthy iff non-zero.
-/

namespace InvPersist

/-- A JS value assignable through `item[key] = data.props[key]`. -/
inductive PropV
  | num  (n : Nat)
  | bool (b : Bool)
  | str  (s : String)
  deriving DecidableEq, Repr

/-- The `components` object of a persisted descriptor:
`enchantable` is the saved `(e.type.id, e.level)` list, `durability`
the saved `damage` value; each field is optional. -/
structure RawComps where
  enchantable : Option (List (String × Nat))
  durability  : Option Nat
  deriving DecidableEq, Repr

/-- One persisted item descriptor, as written by `saveInventory`
(and as read back by `loadInventory` from JSON, where `components`
may be missing in a foreign payload). -/
structure RawDesc where
  typeId     : String
  props      : List (String × PropV)
  lore       : List String
  components : Option RawComps
  deriving DecidableEq, Repr

/-- One element of a persisted slot sequence: JSON `null` or a descriptor. -/
inductive RawSlot
  | nullSlot
  | desc (d : RawDesc)
  deriving DecidableEq, Repr

/-- A dynamic-property value: a string that parses as a slot-descriptor
array, or a string on which `JSON.parse` throws. -/
inductive PVal
  | jarr (xs : List RawSlot)
  | malformed
  deriving DecidableEq, Repr

/-- The dynamic-property store of the `storage` target. -/
def Store : Type := String → Option PVal

def setDynamicProperty (st : Store) (k : String) (v : PVal) : Store :=
  fun k' => if k' = k then some v else st k'

def getDynamicProperty (st : Store) (k : String) : Option PVal := st k

/-- A live `ItemStack`. -/
structure Item where
  typeId      : String
  amount      : Nat
  keepOnDeath : Bool
  lockMode    : String
  nameTag     : Option String
  lore        : List String
  /-- Capability field: `none` = no enchantable capability; `some l` = capability holding
  the enchantment list `l` of `(type id, level)` pairs. -/
  enchantable : Option (List (String × Nat))
  /-- Capability field: `none` = no durability capability; `some d` = capability with
  accumulated damage `d`. -/
  durability  : Option Nat
  /-- Expando properties set by `item[key] = v` for non-native keys. -/
  extraProps  : List (String × PropV)
  deriving DecidableEq, Repr

/-- What the item registry knows about one resolvable `typeId`:
whether a fresh item of that type has the enchantable / durability
capability. -/
structure TypeInfo where
  ench : Bool
  dur  : Bool
  deriving DecidableEq, Repr

/-- The item registry: `new ItemStack t` succeeds iff `typeInfo t` is
`some`. -/
structure World where
  typeInfo : String → Option TypeInfo

/-- The item produced by `new ItemStack(t)` (default amount 1, no
name tag, no lore, empty/zero component state per capability). -/
def freshItem (t : String) (info : TypeInfo) : Item :=
  { typeId := t
    amount := 1
    keepOnDeath := false
    lockMode := "none"
    nameTag := none
    lore := []
    enchantable := if info.ench then some [] else none
    durability := if info.dur then some 0 else none
    extraProps := [] }

/-- The five worn-equipment slots. -/
inductive EquipSlot
  | head | chest | legs | feet | offhand
  deriving DecidableEq, Repr

/-- Source list `["Head", "Chest", "Legs", "Feet", "Offhand"]`. -/
def listOfEquipmentSlots : List EquipSlot :=
  [.head, .chest, .legs, .feet, .offhand]

/-- The worn equipment of an actor. -/
structure Equip where
  head    : Option Item
  chest   : Option Item
  legs    : Option Item
  feet    : Option Item
  offhand : Option Item
  deriving DecidableEq, Repr

def Equip.get (e : Equip) : EquipSlot → Option Item
  | .head => e.head
  | .chest => e.chest
  | .legs => e.legs
  | .feet => e.feet
  | .offhand => e.offhand

def Equip.set (e : Equip) : EquipSlot → Option Item → Equip
  | .head, v => { e with head := v }
  | .chest, v => { e with chest := v }
  | .legs, v => { e with legs := v }
  | .feet, v => { e with feet := v }
  | .offhand, v => { e with offhand := v }

/-- An actor exposing an inventory container (`inv`, indexed list of
slots, capacity = `inv.length`) and an equippable component. -/
structure Actor where
  inv   : List (Option Item)
  equip : Equip
  deriving DecidableEq, Repr

/-- Models `container.setItem(i, v)`: throws when `i` is not a valid slot
index; the error payload is the untouched actor. -/
def setItemA (a : Actor) (i : Nat) (v : Option Item) : Except Actor Actor :=
  if i < a.inv.length then .ok { a with inv := a.inv.set i v } else .error a

/-- Models `equippable.setEquipment(s, item)`. -/
def setEquipA (a : Actor) (s : EquipSlot) (v : Option Item) : Actor :=
  { a with equip := a.equip.set s v }

/-! ### saveInventory -/

/-- The descriptor `saveInventory` builds for one occupied slot
(`src/utilities.js` lines 35–52 / 61–78). -/
def captureItem (it : Item) : RawDesc :=
  { typeId := it.typeId
    props :=
      [("amount", .num it.amount),
       ("keepOnDeath", .bool it.keepOnDeath),
       ("lockMode", .str it.lockMode)] ++
      (match it.nameTag with
       | some s => if s = "" then [] else [("nameTag", .str s)]
       | none => [])
    lore := it.lore
    components := some ⟨it.enchantable, it.durability⟩ }

/-- One slot of a persisted sequence: JSON `null` for an empty slot,
a descriptor otherwise. -/
def captureSlot : Option Item → RawSlot
  | none => .nullSlot
  | some it => .desc (captureItem it)

/-- Embedding of `saveInventory(player, invName, storage)` (`src/utilities.js`
lines 24–83).  The actor is only read, never written, so it is threaded
through unchanged; the return value `{items, wornArmor}` is the last
component. -/
def saveInventory (a : Actor) (invName : String) (storage : Store) :
    Actor × Store × (List RawSlot × List RawSlot) :=
  let wornArmor := listOfEquipmentSlots.map (fun s => captureSlot (a.equip.get s))
  let st1 := setDynamicProperty storage ("armor:" ++ invName) (.jarr wornArmor)
  let items := a.inv.map captureSlot
  let st2 := setDynamicProperty st1 ("inventory:" ++ invName) (.jarr items)
  (a, st2, (items, wornArmor))

/-! ### loadInventory -/

/-- Models `JSON.parse(storage.getDynamicProperty(key) ?? "[]")`: an absent
property parses as the empty array, a malformed string throws. -/
def parseProp : Option PVal → Except Unit (List RawSlot)
  | none => .ok []
  | some (.jarr xs) => .ok xs
  | some .malformed => .error ()

/-- JS property assignment on a plain object: overwrite in place, or
append a new key at the end. -/
def upsertProp : List (String × PropV) → String → PropV → List (String × PropV)
  | [], k, v => [(k, v)]
  | (k', v') :: rest, k, v =>
      if k' = k then (k, v) :: rest else (k', v') :: upsertProp rest k v

/-- Models `item[key] = v`: the four native `ItemStack` fields are set through
their setters, any other key becomes an expando property.  Assignments
of a value of the wrong shape to a native field are not modelled (the
persisted payloads of interest are well-typed per field). -/
def assignProp (it : Item) (k : String) (v : PropV) : Item :=
  if k = "amount" then
    match v with | .num n => { it with amount := n } | _ => it
  else if k = "keepOnDeath" then
    match v with | .bool b => { it with keepOnDeath := b } | _ => it
  else if k = "lockMode" then
    match v with | .str s => { it with lockMode := s } | _ => it
  else if k = "nameTag" then
    match v with | .str s => { it with nameTag := some s } | _ => it
  else
    { it with extraProps := upsertProp it.extraProps k v }

/-- Reconstruction of one item from a non-null descriptor
(`src/utilities.js` lines 99–109 / 118–128): `new ItemStack(typeId)`
(throws on an unresolvable type), the `props` copy loop, `setLore`,
then the two component blocks.  `data.components.enchantable` throws
when `components` is missing; `getComponent("enchantable")` of an item
without the capability is `undefined`, so the subsequent
`addEnchantments` / `damage =` throws; `damage = 0` is never executed
because `0` is falsy. -/
def buildItem (w : World) (d : RawDesc) : Except Unit Item :=
  match w.typeInfo d.typeId with
  | none => .error ()
  | some info =>
    let it0 := d.props.foldl (fun it kv => assignProp it kv.1 kv.2)
      (freshItem d.typeId info)
    let it1 := { it0 with lore := d.lore }
    match d.components with
    | none => .error ()
    | some comps =>
      let step1 : Except Unit Item :=
        match comps.enchantable with
        | some l =>
          match it1.enchantable with
          | some cur => .ok { it1 with enchantable := some (cur ++ l) }
          | none => .error ()
        | none => .ok it1
      match step1 with
      | .error e => .error e
      | .ok it2 =>
        match comps.durability with
        | none => .ok it2
        | some dmg =>
          if dmg = 0 then .ok it2
          else
            match it2.durability with
            | some _ => .ok { it2 with durability := some dmg }
            | none => .error ()

/-- One iteration of the armor-restore loop (`src/utilities.js`
lines 93–111): a falsy descriptor clears **container** slot `i`
(`container.setItem(i, null)` — the loop does not touch the equipment
slot in this branch); a descriptor builds an item and places it with
`setEquipment`. -/
def armorStep (w : World) (worn : List RawSlot) (i : Nat) (a : Actor) :
    Except Actor Actor :=
  match worn.get? i with
  | none | some .nullSlot => setItemA a i none
  | some (.desc d) =>
    match buildItem w d with
    | .error _ => .error a
    | .ok it => .ok (setEquipA a (listOfEquipmentSlots.getD i .head) (some it))

/-- One iteration of the inventory-restore loop (`src/utilities.js`
lines 113–131). -/
def invStep (w : World) (items : List RawSlot) (i : Nat) (a : Actor) :
    Except Actor Actor :=
  match items.get? i with
  | none | some .nullSlot => setItemA a i none
  | some (.desc d) =>
    match buildItem w d with
    | .error _ => .error a
    | .ok it => setItemA a i (some it)

/-- Run a loop body over a list of indices, stopping at the first
throw (the error payload is the state at the throw). -/
def iterSteps (f : Nat → Actor → Except Actor Actor) :
    List Nat → Actor → Except Actor Actor
  | [], a => .ok a
  | i :: is, a =>
    match f i a with
    | .ok a' => iterSteps f is a'
    | .error a' => .error a'

/-- Embedding of `loadInventory(player, invName, storage)` (`src/utilities.js`
lines 88–132).  The store is only read; it is returned unchanged as the
second component.  The first component is the final actor, or the actor
state at the moment of an uncaught throw. -/
def loadInventory (w : World) (a : Actor) (invName : String) (storage : Store) :
    Except Actor Actor × Store :=
  match parseProp (getDynamicProperty storage ("inventory:" ++ invName)) with
  | .error _ => (.error a, storage)
  | .ok items =>
    match parseProp (getDynamicProperty storage ("armor:" ++ invName)) with
    | .error _ => (.error a, storage)
    | .ok wornArmor =>
      match iterSteps (armorStep w wornArmor)
          (List.range listOfEquipmentSlots.length) a with
      | .error a1 => (.error a1, storage)
      | .ok a1 =>
        match iterSteps (invStep w items) (List.range a.inv.length) a1 with
        | .error a2 => (.error a2, storage)
        | .ok a2 => (.ok a2, storage)

/-! ### Run characterization

Each iteration of the two restore loops performs at most one write, and
which write it performs depends only on the parsed payload and the item
registry — never on the actor.  `Wr` names that write; the lemmas below
recast a loop run as a fold of writes, and read the final state off the
list of writes. -/

/-- The single write an iteration of a restore loop performs:
a (bounds-checked) container write, an equipment write, or a throw. -/
inductive Wr
  | cset (i : Nat) (v : Option Item)
  | eset (s : EquipSlot) (it : Item)
  | fail
  deriving DecidableEq, Repr

def applyW : Wr → Actor → Except Actor Actor
  | .cset i v, a => setItemA a i v
  | .eset s it, a => .ok (setEquipA a s (some it))
  | .fail, a => .error a

/-- The write the armor loop performs at index `i`. -/
def wrOfArmor (w : World) (worn : List RawSlot) (i : Nat) : Wr :=
  match worn.get? i with
  | none | some .nullSlot => .cset i none
  | some (.desc d) =>
    match buildItem w d with
    | .error _ => .fail
    | .ok it => .eset (listOfEquipmentSlots.getD i .head) it

/-- The write the inventory loop performs at index `i`. -/
def wrOfInv (w : World) (items : List RawSlot) (i : Nat) : Wr :=
  match items.get? i with
  | none | some .nullSlot => .cset i none
  | some (.desc d) =>
    match buildItem w d with
    | .error _ => .fail
    | .ok it => .cset i (some it)

theorem armorStep_eq_applyW (w : World) (worn : List RawSlot) (i : Nat)
    (a : Actor) : armorStep w worn i a = applyW (wrOfArmor w worn i) a := by
  rcases h : worn.get? i with _ | ⟨_ | d⟩ <;>
    simp only [armorStep, wrOfArmor, h, applyW]
  rcases hb : buildItem w d with e | it <;> simp [hb, applyW]

theorem invStep_eq_applyW (w : World) (items : List RawSlot) (i : Nat)
    (a : Actor) : invStep w items i a = applyW (wrOfInv w items i) a := by
  rcases h : items.get? i with _ | ⟨_ | d⟩ <;>
    simp only [invStep, wrOfInv, h, applyW]
  rcases hb : buildItem w d with e | it <;> simp [hb, applyW]

def runW : List Wr → Actor → Except Actor Actor
  | [], a => .ok a
  | wr :: ws, a =>
    match applyW wr a with
    | .ok a' => runW ws a'
    | .error a' => .error a'

theorem iterSteps_eq_runW (f : Nat → Actor → Except Actor Actor)
    (g : Nat → Wr) (hf : ∀ i a, f i a = applyW (g i) a) :
    ∀ (l : List Nat) (a : Actor), iterSteps f l a = runW (l.map g) a := by
  intro l
  induction l with
  | nil => intro a; rfl
  | cons i is ih =>
    intro a
    have hstep : iterSteps f (i :: is) a =
        (match f i a with
         | .ok a' => iterSteps f is a'
         | .error a' => .error a') := rfl
    rw [hstep, hf]
    cases hA : applyW (g i) a with
    | ok a' => simp [runW, hA, ih a']
    | error a' => simp [runW, hA]

theorem runW_append (l1 l2 : List Wr) :
    ∀ a, runW (l1 ++ l2) a =
      match runW l1 a with
      | .ok a' => runW l2 a'
      | .error a' => .error a' := by
  induction l1 with
  | nil => intro a; rfl
  | cons wr ws ih =>
    intro a
    have hstep : runW ((wr :: ws) ++ l2) a =
        (match applyW wr a with
         | .ok a' => runW (ws ++ l2) a'
         | .error a' => .error a') := rfl
    rw [hstep]
    cases hA : applyW wr a with
    | ok a' => simp [runW, hA, ih a']
    | error a' => simp [runW, hA]

/-- The pure effect of a write (a failed bounds check and a throw both
leave the state as is; `List.set` out of range is the identity). -/
def app1 : Wr → Actor → Actor
  | .cset i v, a => { a with inv := a.inv.set i v }
  | .eset s it, a => setEquipA a s (some it)
  | .fail, a => a

def applyAll (ws : List Wr) (a : Actor) : Actor :=
  ws.foldl (fun a wr => app1 wr a) a

/-- Whether a write succeeds against a container of `n` slots. -/
def wrOk (n : Nat) : Wr → Bool
  | .cset i _ => decide (i < n)
  | .eset _ _ => true
  | .fail => false

theorem app1_inv_length (wr : Wr) (a : Actor) :
    (app1 wr a).inv.length = a.inv.length := by
  cases wr <;> simp [app1, setEquipA]

theorem applyAll_inv_length (ws : List Wr) :
    ∀ a : Actor, (applyAll ws a).inv.length = a.inv.length := by
  induction ws with
  | nil => intro a; rfl
  | cons wr ws ih =>
    intro a
    show (applyAll ws (app1 wr a)).inv.length = _
    rw [ih, app1_inv_length]

theorem runW_ok_of_wrOk (ws : List Wr) :
    ∀ a : Actor, (∀ wr ∈ ws, wrOk a.inv.length wr = true) →
      runW ws a = .ok (applyAll ws a) := by
  induction ws with
  | nil => intro a _; rfl
  | cons wr ws ih =>
    intro a h
    have hwr := h wr (List.mem_cons_self wr ws)
    have hrest : ∀ w ∈ ws, wrOk (app1 wr a).inv.length w = true := by
      intro w hw
      rw [app1_inv_length]
      exact h w (List.mem_cons_of_mem wr hw)
    have hstep : runW (wr :: ws) a =
        (match applyW wr a with
         | .ok a' => runW ws a'
         | .error a' => .error a') := rfl
    have happ : applyAll (wr :: ws) a = applyAll ws (app1 wr a) := rfl
    rw [hstep, happ]
    have hrec := ih (app1 wr a) hrest
    cases wr with
    | cset i v =>
      have hi : i < a.inv.length := by simpa [wrOk] using hwr
      simp only [applyW, setItemA, hi, if_true, if_pos]
      exact hrec
    | eset s it =>
      simp only [applyW]
      exact hrec
    | fail => simp [wrOk] at hwr

theorem runW_ok_elim (ws : List Wr) :
    ∀ a a' : Actor, runW ws a = .ok a' →
      (∀ wr ∈ ws, wrOk a.inv.length wr = true) ∧ a' = applyAll ws a := by
  induction ws with
  | nil =>
    intro a a' h
    refine ⟨by simp, ?_⟩
    simpa [runW] using h.symm
  | cons wr ws ih =>
    intro a a' h
    have hstep : runW (wr :: ws) a =
        (match applyW wr a with
         | .ok a1 => runW ws a1
         | .error a1 => .error a1) := rfl
    rw [hstep] at h
    have happ : applyAll (wr :: ws) a = applyAll ws (app1 wr a) := rfl
    rw [happ]
    cases wr with
    | cset i v =>
      by_cases hi : i < a.inv.length
      · simp only [applyW, setItemA, hi, if_true, if_pos] at h
        obtain ⟨h1, h2⟩ := ih _ _ h
        refine ⟨?_, h2⟩
        intro w hw
        rcases List.mem_cons.1 hw with rfl | hw
        · simpa [wrOk] using hi
        · have := h1 w hw
          simpa using this
      · simp [applyW, setItemA, hi] at h
    | eset s it =>
      simp only [applyW] at h
      obtain ⟨h1, h2⟩ := ih _ _ h
      refine ⟨?_, h2⟩
      intro w hw
      rcases List.mem_cons.1 hw with rfl | hw
      · rfl
      · have := h1 w hw
        simpa [setEquipA] using this
    | fail => simp [applyW] at h

/-- The last (winning) container write to slot `j` in a write list. -/
def lastCset : List Wr → Nat → Option (Option Item)
  | [], _ => none
  | wr :: ws, j =>
    match lastCset ws j with
    | some v => some v
    | none =>
      match wr with
      | .cset i v => if i = j then some v else none
      | _ => none

/-- The last (winning) equipment write to slot `s` in a write list. -/
def lastEset : List Wr → EquipSlot → Option Item
  | [], _ => none
  | wr :: ws, s =>
    match lastEset ws s with
    | some it => some it
    | none =>
      match wr with
      | .eset s' it => if s' = s then some it else none
      | _ => none

theorem Equip.get_set (e : Equip) (s s' : EquipSlot) (v : Option Item) :
    (e.set s v).get s' = if s' = s then v else e.get s' := by
  cases s <;> cases s' <;> simp [Equip.get, Equip.set]

theorem applyAll_inv_get? (ws : List Wr) :
    ∀ (a : Actor) (j : Nat), j < a.inv.length →
      (applyAll ws a).inv.get? j =
        match lastCset ws j with
        | some v => some v
        | none => a.inv.get? j := by
  induction ws with
  | nil => intro a j _; simp [applyAll, lastCset]
  | cons wr ws ih =>
    intro a j hj
    have happ : applyAll (wr :: ws) a = applyAll ws (app1 wr a) := rfl
    rw [happ]
    have hj' : j < (app1 wr a).inv.length := by rwa [app1_inv_length]
    rw [ih (app1 wr a) j hj']
    cases hC : lastCset ws j with
    | some v => simp [lastCset, hC]
    | none =>
      simp only [lastCset, hC]
      cases wr with
      | cset i v =>
        have hset : (a.inv.set i v)[j]? =
            if i = j then some v else a.inv[j]? := by
          simpa using List.get?_set_of_lt v a.inv hj
        by_cases hij : i = j
        · subst hij; simp [app1, hset]
        · simp [app1, hset, hij]
      | eset s it => simp [app1, setEquipA]
      | fail => simp [app1]

theorem applyAll_equip_get (ws : List Wr) :
    ∀ (a : Actor) (s : EquipSlot),
      (applyAll ws a).equip.get s =
        match lastEset ws s with
        | some it => some it
        | none => a.equip.get s := by
  induction ws with
  | nil => intro a s; simp [applyAll, lastEset]
  | cons wr ws ih =>
    intro a s
    have happ : applyAll (wr :: ws) a = applyAll ws (app1 wr a) := rfl
    rw [happ, ih (app1 wr a) s]
    cases hE : lastEset ws s with
    | some it => simp [lastEset, hE]
    | none =>
      simp only [lastEset, hE]
      cases wr with
      | cset i v => simp [app1]
      | eset s' it =>
        by_cases hss : s' = s
        · subst hss; simp [app1, setEquipA, Equip.get_set]
        · simp [app1, setEquipA, Equip.get_set, hss, Ne.symm hss]
      | fail => simp [app1]

theorem Actor.eq_of_parts (x y : Actor) (h1 : x.inv = y.inv)
    (h2 : x.equip = y.equip) : x = y := by
  cases x; cases y; cases h1; cases h2; rfl

theorem Equip.eq_of_get (e e' : Equip) (h : ∀ s, e.get s = e'.get s) :
    e = e' := by
  cases e; cases e'
  have h1 := h .head
  have h2 := h .chest
  have h3 := h .legs
  have h4 := h .feet
  have h5 := h .offhand
  simp [Equip.get] at h1 h2 h3 h4 h5
  cases h1; cases h2; cases h3; cases h4; cases h5; rfl

/-- Replaying the same write list on its own result changes nothing:
every location either takes the same winning write again, or is
untouched both times. -/
theorem applyAll_idem (ws : List Wr) (a : Actor) :
    applyAll ws (applyAll ws a) = applyAll ws a := by
  apply Actor.eq_of_parts
  · apply List.ext_get?
    intro j
    by_cases hj : j < a.inv.length
    · have hj1 : j < (applyAll ws a).inv.length := by
        rwa [applyAll_inv_length]
      rw [applyAll_inv_get? ws (applyAll ws a) j hj1,
        applyAll_inv_get? ws a j hj]
      cases lastCset ws j <;> simp [applyAll_inv_get? ws a j hj]
    · have h1 : (applyAll ws a).inv.get? j = none := by
        rw [List.get?_eq_none]
        rw [applyAll_inv_length]
        omega
      have h2 : (applyAll ws (applyAll ws a)).inv.get? j = none := by
        rw [List.get?_eq_none]
        rw [applyAll_inv_length, applyAll_inv_length]
        omega
      rw [h1, h2]
  · apply Equip.eq_of_get
    intro s
    rw [applyAll_equip_get ws (applyAll ws a) s, applyAll_equip_get ws a s]
    cases lastEset ws s <;> simp [applyAll_equip_get ws a s]

/-! ### Validity, observable equality, and the capture/build round trip -/

/-- A live item is valid when its `typeId` resolves in the registry, its
capability set agrees with its type (as the host guarantees for items
obtained from real slots), and its name tag, if present, is non-empty
(an empty rename reverts to the default name, i.e. no tag). -/
def validItem (w : World) (it : Item) : Bool :=
  match w.typeInfo it.typeId with
  | none => false
  | some info =>
    (it.enchantable.isSome == info.ench) && (it.durability.isSome == info.dur)
      && !(it.nameTag == some "")

def validSlot (w : World) : Option Item → Bool
  | none => true
  | some it => validItem w it

def validActor (w : World) (a : Actor) : Bool :=
  a.inv.all (validSlot w)
    && listOfEquipmentSlots.all (fun s => validSlot w (a.equip.get s))

/-- Equality of the observables the spec names: `typeId`, `amount`,
`keepOnDeath`, `lockMode`, `nameTag`, `lore`, enchantment set, damage. -/
def obsEq (x y : Item) : Prop :=
  x.typeId = y.typeId ∧ x.amount = y.amount ∧ x.keepOnDeath = y.keepOnDeath ∧
    x.lockMode = y.lockMode ∧ x.nameTag = y.nameTag ∧ x.lore = y.lore ∧
    x.enchantable = y.enchantable ∧ x.durability = y.durability

def obsSlotEq : Option Item → Option Item → Prop
  | none, none => True
  | some x, some y => obsEq x y
  | _, _ => False

/-- An item with its expando properties dropped: restoring a captured
item reproduces it exactly up to `extraProps`. -/
def strip (it : Item) : Item := { it with extraProps := [] }

theorem obsEq_strip (it : Item) : obsEq (strip it) it :=
  ⟨rfl, rfl, rfl, rfl, rfl, rfl, rfl, rfl⟩

theorem obsSlotEq_strip (v : Option Item) : obsSlotEq (v.map strip) v := by
  cases v with
  | none => trivial
  | some it => exact obsEq_strip it

/-- Re-building a captured valid item succeeds and reproduces the item
exactly, except that the rebuilt item has no expando properties. -/
theorem buildItem_captureItem (w : World) (it : Item)
    (h : validItem w it = true) :
    buildItem w (captureItem it) = .ok (strip it) := by
  unfold validItem at h
  cases hT : w.typeInfo it.typeId with
  | none => rw [hT] at h; cases h
  | some info =>
    rw [hT] at h
    simp only [Bool.and_eq_true, beq_iff_eq, Bool.not_eq_true',
      beq_eq_false_iff_ne, ne_eq] at h
    obtain ⟨⟨hE, hD⟩, hN⟩ := h
    have hT' : w.typeInfo (captureItem it).typeId = some info := hT
    unfold buildItem
    rw [hT']
    rcases hname : it.nameTag with _ | s
    · simp only [captureItem, hname, List.append_nil]
      simp only [List.foldl, assignProp, freshItem, strip]
      norm_num
      rcases hee : it.enchantable with _ | l <;>
        rcases hdd : it.durability with _ | dm
      · rw [hee] at hE; rw [hdd] at hD
        simp at hE hD
        simp [hE, hD, hee, hdd, hname]
      · rw [hee] at hE; rw [hdd] at hD
        simp at hE hD
        rcases Nat.eq_zero_or_pos dm with h0 | h0
        · subst h0; simp [hE, hD, hee, hdd, hname]
        · simp [hE, hD, hee, hdd, hname, Nat.pos_iff_ne_zero.1 h0]
      · rw [hee] at hE; rw [hdd] at hD
        simp at hE hD
        simp [hE, hD, hee, hdd, hname]
      · rw [hee] at hE; rw [hdd] at hD
        simp at hE hD
        rcases Nat.eq_zero_or_pos dm with h0 | h0
        · subst h0; simp [hE, hD, hee, hdd, hname]
        · simp [hE, hD, hee, hdd, hname, Nat.pos_iff_ne_zero.1 h0]
    · have hs : ¬ s = "" := by
        intro hc; subst hc; exact absurd hname hN
      simp only [captureItem, hname, hs, if_neg]
      simp only [List.foldl, assignProp, freshItem, strip]
      norm_num
      rcases hee : it.enchantable with _ | l <;>
        rcases hdd : it.durability with _ | dm
      · rw [hee] at hE; rw [hdd] at hD
        simp at hE hD
        simp [hE, hD, hee, hdd, hname]
      · rw [hee] at hE; rw [hdd] at hD
        simp at hE hD
        rcases Nat.eq_zero_or_pos dm with h0 | h0
        · subst h0; simp [hE, hD, hee, hdd, hname]
        · simp [hE, hD, hee, hdd, hname, Nat.pos_iff_ne_zero.1 h0]
      · rw [hee] at hE; rw [hdd] at hD
        simp at hE hD
        simp [hE, hD, hee, hdd, hname]
      · rw [hee] at hE; rw [hdd] at hD
        simp at hE hD
        rcases Nat.eq_zero_or_pos dm with h0 | h0
        · subst h0; simp [hE, hD, hee, hdd, hname]
        · simp [hE, hD, hee, hdd, hname, Nat.pos_iff_ne_zero.1 h0]

/-! ### Assembling a full load as one write sequence -/

theorem armorKey_ne_invKey (invName : String) :
    ("armor:" ++ invName) ≠ ("inventory:" ++ invName) := by
  intro h
  have hlen := congrArg String.length h
  rw [String.length_append, String.length_append] at hlen
  have h6 : ("armor:" : String).length = 6 := by decide
  have h10 : ("inventory:" : String).length = 10 := by decide
  rw [h6, h10] at hlen
  omega

/-- After `saveInventory`, the two keys hold the two captured
sequences. -/
theorem saveInventory_store (a : Actor) (invName : String) (st : Store) :
    (saveInventory a invName st).2.1 ("inventory:" ++ invName)
        = some (.jarr (a.inv.map captureSlot)) ∧
      (saveInventory a invName st).2.1 ("armor:" ++ invName)
        = some (.jarr (listOfEquipmentSlots.map
            (fun s => captureSlot (a.equip.get s)))) := by
  constructor
  · simp [saveInventory, setDynamicProperty]
  · simp [saveInventory, setDynamicProperty, armorKey_ne_invKey invName]

/-- A `loadInventory` run whose two keys parse is the run of the armor
write sequence followed by the inventory write sequence. -/
theorem loadInventory_run (w : World) (a : Actor) (invName : String)
    (st : Store) (items worn : List RawSlot)
    (hi : st ("inventory:" ++ invName) = some (.jarr items))
    (ha : st ("armor:" ++ invName) = some (.jarr worn)) :
    (loadInventory w a invName st).1 =
      runW ((List.range listOfEquipmentSlots.length).map (wrOfArmor w worn)
        ++ (List.range a.inv.length).map (wrOfInv w items)) a := by
  have h1 : parseProp (getDynamicProperty st ("inventory:" ++ invName))
      = .ok items := by rw [getDynamicProperty, hi]; rfl
  have h2 : parseProp (getDynamicProperty st ("armor:" ++ invName))
      = .ok worn := by rw [getDynamicProperty, ha]; rfl
  have hArm := iterSteps_eq_runW (armorStep w worn) (wrOfArmor w worn)
    (armorStep_eq_applyW w worn) (List.range listOfEquipmentSlots.length) a
  rw [runW_append]
  unfold loadInventory
  rw [h1, h2]
  simp only
  rw [hArm]
  cases hA : runW ((List.range listOfEquipmentSlots.length).map
      (wrOfArmor w worn)) a with
  | error a1 => simp
  | ok a1 =>
    simp only
    have hInv := iterSteps_eq_runW (invStep w items) (wrOfInv w items)
      (invStep_eq_applyW w items) (List.range a.inv.length) a1
    rw [hInv]
    cases hI : runW ((List.range a.inv.length).map (wrOfInv w items)) a1 <;>
      simp

/-- The store is only read by `loadInventory`, never written. -/
theorem loadInventory_store_id (w : World) (a : Actor) (invName : String)
    (st : Store) : (loadInventory w a invName st).2 = st := by
  unfold loadInventory
  cases parseProp (getDynamicProperty st ("inventory:" ++ invName)) with
  | error e => rfl
  | ok items =>
    simp only
    cases parseProp (getDynamicProperty st ("armor:" ++ invName)) with
    | error e => rfl
    | ok worn =>
      simp only
      cases iterSteps (armorStep w worn)
          (List.range listOfEquipmentSlots.length) a with
      | error a1 => rfl
      | ok a1 =>
        simp only
        cases iterSteps (invStep w items) (List.range a.inv.length) a1 <;> rfl

theorem lastCset_cons (wr : Wr) (ws : List Wr) (j : Nat) :
    lastCset (wr :: ws) j =
      (match lastCset ws j with
       | some v => some v
       | none =>
         match wr with
         | Wr.cset i v => if i = j then some v else none
         | _ => none) := rfl

theorem lastEset_cons (wr : Wr) (ws : List Wr) (s : EquipSlot) :
    lastEset (wr :: ws) s =
      (match lastEset ws s with
       | some it => some it
       | none =>
         match wr with
         | Wr.eset s' it => if s' = s then some it else none
         | _ => none) := rfl

theorem lastCset_append (l1 l2 : List Wr) (j : Nat) :
    lastCset (l1 ++ l2) j =
      match lastCset l2 j with
      | some v => some v
      | none => lastCset l1 j := by
  induction l1 with
  | nil =>
    show lastCset l2 j = _
    cases lastCset l2 j <;> rfl
  | cons wr ws ih =>
    have hdef : lastCset ((wr :: ws) ++ l2) j
        = lastCset (wr :: (ws ++ l2)) j := rfl
    rw [hdef, lastCset_cons, ih, lastCset_cons]
    cases lastCset l2 j with
    | some v => rfl
    | none => rfl

theorem lastEset_append (l1 l2 : List Wr) (s : EquipSlot) :
    lastEset (l1 ++ l2) s =
      match lastEset l2 s with
      | some it => some it
      | none => lastEset l1 s := by
  induction l1 with
  | nil =>
    show lastEset l2 s = _
    cases lastEset l2 s <;> rfl
  | cons wr ws ih =>
    have hdef : lastEset ((wr :: ws) ++ l2) s
        = lastEset (wr :: (ws ++ l2)) s := rfl
    rw [hdef, lastEset_cons, ih, lastEset_cons]
    cases lastEset l2 s with
    | some it => rfl
    | none => rfl

/-- In a write list that enumerates one container write per index, the
winning write for index `j` is its own. -/
theorem lastCset_map_range (g : Nat → Wr) (vv : Nat → Option Item) :
    ∀ n j, (∀ i, i < n → g i = .cset i (vv i)) → j < n →
      lastCset ((List.range n).map g) j = some (vv j) := by
  intro n
  induction n with
  | zero => intro j _ hj; omega
  | succ n ih =>
    intro j hg hj
    rw [List.range_succ, List.map_append, lastCset_append]
    have hgn : g n = .cset n (vv n) := hg n (Nat.lt_succ_self n)
    by_cases hjn : j = n
    · subst hjn
      simp [lastCset, hgn]
    · have hj' : j < n := by omega
      have := ih j (fun i hi => hg i (by omega)) hj'
      simp [lastCset, hgn, Ne.symm hjn, hjn, this]

/-- A write list with no equipment writes leaves every equipment
readout empty. -/
theorem lastEset_of_no_eset (ws : List Wr)
    (h : ∀ wr ∈ ws, ∀ s' it, wr ≠ .eset s' it) (s : EquipSlot) :
    lastEset ws s = none := by
  induction ws with
  | nil => rfl
  | cons wr ws ih =>
    rw [lastEset_cons, ih (fun w hw => h w (List.mem_cons_of_mem wr hw))]
    cases wr with
    | cset i v => rfl
    | eset s' it => exact absurd rfl (h _ (List.mem_cons_self _ _) s' it)
    | fail => rfl

/-- The inventory loop never writes equipment. -/
theorem wrOfInv_ne_eset (w : World) (items : List RawSlot) (i : Nat)
    (s : EquipSlot) (it : Item) : wrOfInv w items i ≠ .eset s it := by
  unfold wrOfInv
  rcases items.get? i with _ | ⟨_ | d⟩ <;> simp
  rcases buildItem w d with e | b <;> simp

/-! ### The write sequences produced by a freshly saved snapshot -/

theorem validSlot_equip (w : World) (a : Actor) (hv : validActor w a = true)
    (s : EquipSlot) : validSlot w (a.equip.get s) = true := by
  unfold validActor at hv
  rw [Bool.and_eq_true] at hv
  have h2 := hv.2
  rw [List.all_eq_true] at h2
  have hmem : s ∈ listOfEquipmentSlots := by
    cases s <;> simp [listOfEquipmentSlots]
  simpa using h2 s hmem

theorem validSlot_inv (w : World) (a : Actor) (hv : validActor w a = true)
    (j : Nat) (el : Option Item) (h : a.inv.get? j = some el) :
    validSlot w el = true := by
  unfold validActor at hv
  rw [Bool.and_eq_true] at hv
  have h1 := hv.1
  rw [List.all_eq_true] at h1
  exact h1 el (List.get?_mem h)

/-- The saved armor sequence used by `wornArmorOf`. -/
def wornArmorOf (a : Actor) : List RawSlot :=
  listOfEquipmentSlots.map (fun s => captureSlot (a.equip.get s))

theorem wrOfArmor_saved_aux (w : World) (a : Actor)
    (hv : validActor w a = true) (i : Nat) (s : EquipSlot)
    (hget : (wornArmorOf a).get? i = some (captureSlot (a.equip.get s)))
    (hgetD : listOfEquipmentSlots.getD i EquipSlot.head = s) :
    wrOfArmor w (wornArmorOf a) i =
      (match a.equip.get s with
       | none => .cset i none
       | some it => .eset s (strip it)) := by
  unfold wrOfArmor
  rw [hget, hgetD]
  rcases hsl : a.equip.get s with _ | it
  · rfl
  · have hb : validItem w it = true := by
      have := validSlot_equip w a hv s
      rw [hsl] at this
      simpa [validSlot] using this
    simp [captureSlot, buildItem_captureItem w it hb]

theorem wrOfArmor_saved (w : World) (a : Actor) (hv : validActor w a = true)
    (i : Nat) (hi : i < 5) :
    wrOfArmor w (wornArmorOf a) i =
      (match a.equip.get (listOfEquipmentSlots.getD i .head) with
       | none => .cset i none
       | some it => .eset (listOfEquipmentSlots.getD i .head) (strip it)) := by
  interval_cases i
  · exact wrOfArmor_saved_aux w a hv 0 .head
      (by simp [wornArmorOf, listOfEquipmentSlots]) rfl
  · exact wrOfArmor_saved_aux w a hv 1 .chest
      (by simp [wornArmorOf, listOfEquipmentSlots]) rfl
  · exact wrOfArmor_saved_aux w a hv 2 .legs
      (by simp [wornArmorOf, listOfEquipmentSlots]) rfl
  · exact wrOfArmor_saved_aux w a hv 3 .feet
      (by simp [wornArmorOf, listOfEquipmentSlots]) rfl
  · exact wrOfArmor_saved_aux w a hv 4 .offhand
      (by simp [wornArmorOf, listOfEquipmentSlots]) rfl

theorem wrOfInv_saved (w : World) (a : Actor) (hv : validActor w a = true)
    (j : Nat) (el : Option Item) (h : a.inv.get? j = some el) :
    wrOfInv w (a.inv.map captureSlot) j = .cset j (el.map strip) := by
  have hm : (a.inv.map captureSlot).get? j = some (captureSlot el) := by
    rw [List.get?_map, h]; rfl
  unfold wrOfInv
  rw [hm]
  cases el with
  | none => rfl
  | some it =>
    have hb : validItem w it = true := by
      simpa [validSlot] using validSlot_inv w a hv j (some it) h
    simp [captureSlot, buildItem_captureItem w it hb]

theorem lastEset_armor (w : World) (a : Actor) (hv : validActor w a = true)
    (s : EquipSlot) :
    lastEset ((List.range listOfEquipmentSlots.length).map
      (wrOfArmor w (wornArmorOf a))) s = (a.equip.get s).map strip := by
  have h0 := wrOfArmor_saved w a hv 0 (by omega)
  have h1 := wrOfArmor_saved w a hv 1 (by omega)
  have h2 := wrOfArmor_saved w a hv 2 (by omega)
  have h3 := wrOfArmor_saved w a hv 3 (by omega)
  have h4 := wrOfArmor_saved w a hv 4 (by omega)
  simp only [listOfEquipmentSlots, List.getD_cons_zero, List.getD_cons_succ]
    at h0 h1 h2 h3 h4
  have hlist : (List.range listOfEquipmentSlots.length).map
      (wrOfArmor w (wornArmorOf a)) =
      [wrOfArmor w (wornArmorOf a) 0, wrOfArmor w (wornArmorOf a) 1,
       wrOfArmor w (wornArmorOf a) 2, wrOfArmor w (wornArmorOf a) 3,
       wrOfArmor w (wornArmorOf a) 4] := by
    show (List.range 5).map _ = _
    simp [List.range_succ]
  rw [hlist, h0, h1, h2, h3, h4]
  cases s <;>
    rcases hH : a.equip.get EquipSlot.head with _ | itH <;>
    rcases hC : a.equip.get EquipSlot.chest with _ | itC <;>
    rcases hL : a.equip.get EquipSlot.legs with _ | itL <;>
    rcases hF : a.equip.get EquipSlot.feet with _ | itF <;>
    rcases hO : a.equip.get EquipSlot.offhand with _ | itO <;>
    rfl

theorem armor_writes_ok (w : World) (a : Actor) (hv : validActor w a = true)
    (n : Nat) (hn : 5 ≤ n) (wr : Wr)
    (hmem : wr ∈ (List.range listOfEquipmentSlots.length).map
      (wrOfArmor w (wornArmorOf a))) : wrOk n wr = true := by
  rw [List.mem_map] at hmem
  obtain ⟨i, hi, rfl⟩ := hmem
  rw [List.mem_range] at hi
  have hi5 : i < 5 := hi
  rw [wrOfArmor_saved w a hv i hi5]
  cases a.equip.get (listOfEquipmentSlots.getD i .head) with
  | none => simp [wrOk]; omega
  | some it => simp [wrOk]

theorem inv_writes_ok (w : World) (a : Actor) (hv : validActor w a = true)
    (wr : Wr)
    (hmem : wr ∈ (List.range a.inv.length).map
      (wrOfInv w (a.inv.map captureSlot))) : wrOk a.inv.length wr = true := by
  rw [List.mem_map] at hmem
  obtain ⟨i, hi, rfl⟩ := hmem
  rw [List.mem_range] at hi
  rw [wrOfInv_saved w a hv i (a.inv.get ⟨i, hi⟩) (List.get?_eq_get hi)]
  simp [wrOk, hi]

/-- C1: saving then loading a valid actor restores a loadout
observably equal to the original, slot for slot. -/
theorem c1_save_load_roundtrip (w : World) (a : Actor) (invName : String)
    (st : Store) (hv : validActor w a = true) (hn : 5 ≤ a.inv.length) :
    ∃ a', (loadInventory w a invName (saveInventory a invName st).2.1).1
        = .ok a' ∧
      a'.inv.length = a.inv.length ∧
      (∀ s : EquipSlot, obsSlotEq (a'.equip.get s) (a.equip.get s)) ∧
      ∀ j : Nat, obsSlotEq (a'.inv.getD j none) (a.inv.getD j none) := by
  obtain ⟨hIk, hAk⟩ := saveInventory_store a invName st
  have hrun := loadInventory_run w a invName (saveInventory a invName st).2.1
    (a.inv.map captureSlot) (wornArmorOf a) hIk hAk
  have hok : ∀ wr ∈ (List.range listOfEquipmentSlots.length).map
        (wrOfArmor w (wornArmorOf a))
      ++ (List.range a.inv.length).map (wrOfInv w (a.inv.map captureSlot)),
      wrOk a.inv.length wr = true := by
    intro wr hmem
    rcases List.mem_append.1 hmem with hmem | hmem
    · exact armor_writes_ok w a hv a.inv.length hn wr hmem
    · exact inv_writes_ok w a hv wr hmem
  have hfinal := runW_ok_of_wrOk _ a hok
  refine ⟨_, by rw [hrun, hfinal], applyAll_inv_length _ a, ?_, ?_⟩
  · intro s
    have hinvE : lastEset ((List.range a.inv.length).map
        (wrOfInv w (a.inv.map captureSlot))) s = none :=
      lastEset_of_no_eset _ (by
        intro wr hmem s' it
        rw [List.mem_map] at hmem
        obtain ⟨i, _, rfl⟩ := hmem
        exact wrOfInv_ne_eset w _ i s' it) s
    have hE : lastEset ((List.range listOfEquipmentSlots.length).map
          (wrOfArmor w (wornArmorOf a))
        ++ (List.range a.inv.length).map (wrOfInv w (a.inv.map captureSlot)))
          s = (a.equip.get s).map strip := by
      rw [lastEset_append, hinvE]
      exact lastEset_armor w a hv s
    rw [applyAll_equip_get, hE]
    cases hsl : a.equip.get s with
    | none => exact trivial
    | some it => exact obsEq_strip it
  · intro j
    by_cases hj : j < a.inv.length
    · have hel : a.inv.get? j = some (a.inv.get ⟨j, hj⟩) := List.get?_eq_get hj
      have hg : ∀ i, i < a.inv.length →
          wrOfInv w (a.inv.map captureSlot) i =
            .cset i (((a.inv.get? i).getD none).map strip) := by
        intro i hi
        rw [wrOfInv_saved w a hv i (a.inv.get ⟨i, hi⟩) (List.get?_eq_get hi)]
        rw [List.get?_eq_get hi]
        rfl
      have hC := lastCset_map_range (wrOfInv w (a.inv.map captureSlot))
        (fun i => ((a.inv.get? i).getD none).map strip) a.inv.length j hg hj
      have hCC : lastCset ((List.range listOfEquipmentSlots.length).map
            (wrOfArmor w (wornArmorOf a))
          ++ (List.range a.inv.length).map (wrOfInv w (a.inv.map captureSlot)))
            j = some (((a.inv.get? j).getD none).map strip) := by
        rw [lastCset_append, hC]
      have hget := applyAll_inv_get?
        ((List.range listOfEquipmentSlots.length).map
          (wrOfArmor w (wornArmorOf a))
        ++ (List.range a.inv.length).map (wrOfInv w (a.inv.map captureSlot)))
        a j hj
      rw [hCC] at hget
      rw [List.getD_eq_get?, List.getD_eq_get?, hget]
      exact obsSlotEq_strip _
    · have hlen := applyAll_inv_length
        ((List.range listOfEquipmentSlots.length).map
          (wrOfArmor w (wornArmorOf a))
        ++ (List.range a.inv.length).map (wrOfInv w (a.inv.map captureSlot))) a
      have h1 : (applyAll ((List.range listOfEquipmentSlots.length).map
            (wrOfArmor w (wornArmorOf a))
          ++ (List.range a.inv.length).map
            (wrOfInv w (a.inv.map captureSlot))) a).inv.get? j = none :=
        List.get?_eq_none.2 (by omega)
      have h2 : a.inv.get? j = none := List.get?_eq_none.2 (by omega)
      rw [List.getD_eq_get?, List.getD_eq_get?, h1, h2]
      exact trivial

/-! ### Idempotence of restore -/

/-- A successful load means both persisted values parsed. -/
theorem loadInventory_parse_ok (w : World) (a : Actor) (invName : String)
    (st : Store) (a1 : Actor)
    (h : (loadInventory w a invName st).1 = .ok a1) :
    ∃ items worn,
      parseProp (getDynamicProperty st ("inventory:" ++ invName)) = .ok items
      ∧ parseProp (getDynamicProperty st ("armor:" ++ invName)) = .ok worn := by
  unfold loadInventory at h
  cases hP1 : parseProp (getDynamicProperty st ("inventory:" ++ invName)) with
  | error e => rw [hP1] at h; simp at h
  | ok items =>
    rw [hP1] at h
    cases hP2 : parseProp (getDynamicProperty st ("armor:" ++ invName)) with
    | error e => rw [hP2] at h; simp at h
    | ok worn => exact ⟨items, worn, rfl, rfl⟩

/-- Recast of `loadInventory` as a write-sequence run, phrased on the parsed
payloads. -/
theorem loadInventory_run_parsed (w : World) (a : Actor) (invName : String)
    (st : Store) (items worn : List RawSlot)
    (hP1 : parseProp (getDynamicProperty st ("inventory:" ++ invName))
      = .ok items)
    (hP2 : parseProp (getDynamicProperty st ("armor:" ++ invName))
      = .ok worn) :
    (loadInventory w a invName st).1 =
      runW ((List.range listOfEquipmentSlots.length).map (wrOfArmor w worn)
        ++ (List.range a.inv.length).map (wrOfInv w items)) a := by
  have hArm := iterSteps_eq_runW (armorStep w worn) (wrOfArmor w worn)
    (armorStep_eq_applyW w worn) (List.range listOfEquipmentSlots.length) a
  rw [runW_append]
  unfold loadInventory
  rw [hP1, hP2]
  simp only
  rw [hArm]
  cases hA : runW ((List.range listOfEquipmentSlots.length).map
      (wrOfArmor w worn)) a with
  | error a1 => simp
  | ok a1 =>
    simp only
    have hInv := iterSteps_eq_runW (invStep w items) (wrOfInv w items)
      (invStep_eq_applyW w items) (List.range a.inv.length) a1
    rw [hInv]
    cases hI : runW ((List.range a.inv.length).map (wrOfInv w items)) a1 <;>
      simp

/-- C7: `loadInventory` never writes the dynamic-property store,
and a second load against the same unchanged snapshot reproduces the
loadout of the first. -/
theorem c7_load_readonly_idempotent (w : World) (a : Actor)
    (invName : String) (st : Store) :
    (loadInventory w a invName st).2 = st ∧
      ∀ a1, (loadInventory w a invName st).1 = .ok a1 →
        (loadInventory w a1 invName st).1 = .ok a1 := by
  refine ⟨loadInventory_store_id w a invName st, ?_⟩
  intro a1 h
  obtain ⟨items, worn, hP1, hP2⟩ := loadInventory_parse_ok w a invName st a1 h
  rw [loadInventory_run_parsed w a invName st items worn hP1 hP2] at h
  obtain ⟨hok, rfl⟩ := runW_ok_elim _ a a1 h
  have hlen : (applyAll ((List.range listOfEquipmentSlots.length).map
        (wrOfArmor w worn)
      ++ (List.range a.inv.length).map (wrOfInv w items)) a).inv.length
      = a.inv.length := applyAll_inv_length _ a
  rw [loadInventory_run_parsed w _ invName st items worn hP1 hP2, hlen]
  have hok2 : ∀ wr ∈ (List.range listOfEquipmentSlots.length).map
        (wrOfArmor w worn)
      ++ (List.range a.inv.length).map (wrOfInv w items),
      wrOk (applyAll ((List.range listOfEquipmentSlots.length).map
          (wrOfArmor w worn)
        ++ (List.range a.inv.length).map (wrOfInv w items)) a).inv.length wr
        = true := by
    intro wr hmem
    rw [hlen]
    exact hok wr hmem
  rw [runW_ok_of_wrOk _ _ hok2, applyAll_idem]

/-! ### Frame property of saveInventory -/

/-- C8: `saveInventory` leaves the actor untouched and modifies
only the two name-scoped dynamic properties, which afterwards hold the
two captured sequences. -/
theorem c8_save_frame (a : Actor) (invName : String) (st : Store) :
    (saveInventory a invName st).1 = a ∧
      (saveInventory a invName st).2.1 ("armor:" ++ invName)
        = some (.jarr (wornArmorOf a)) ∧
      (saveInventory a invName st).2.1 ("inventory:" ++ invName)
        = some (.jarr (a.inv.map captureSlot)) ∧
      ∀ k, k ≠ "armor:" ++ invName → k ≠ "inventory:" ++ invName →
        (saveInventory a invName st).2.1 k = st k := by
  refine ⟨rfl, (saveInventory_store a invName st).2,
    (saveInventory_store a invName st).1, ?_⟩
  intro k hk1 hk2
  simp [saveInventory, setDynamicProperty, hk1, hk2]

/-! ### Dissecting a successful item reconstruction -/

theorem assignProp_durability (it : Item) (k : String) (v : PropV) :
    (assignProp it k v).durability = it.durability := by
  unfold assignProp
  split_ifs <;> cases v <;> rfl

theorem assignProp_enchantable (it : Item) (k : String) (v : PropV) :
    (assignProp it k v).enchantable = it.enchantable := by
  unfold assignProp
  split_ifs <;> cases v <;> rfl

theorem foldAssign_durability (props : List (String × PropV)) :
    ∀ it : Item,
      (props.foldl (fun it kv => assignProp it kv.1 kv.2) it).durability
        = it.durability := by
  induction props with
  | nil => intro it; rfl
  | cons kv rest ih =>
    intro it
    show (rest.foldl _ (assignProp it kv.1 kv.2)).durability = _
    rw [ih, assignProp_durability]

theorem foldAssign_enchantable (props : List (String × PropV)) :
    ∀ it : Item,
      (props.foldl (fun it kv => assignProp it kv.1 kv.2) it).enchantable
        = it.enchantable := by
  induction props with
  | nil => intro it; rfl
  | cons kv rest ih =>
    intro it
    show (rest.foldl _ (assignProp it kv.1 kv.2)).enchantable = _
    rw [ih, assignProp_enchantable]

/-- A successful `buildItem` whose descriptor has a `components` block
with no `durability` field leaves the damage of the freshly
constructed item untouched. -/
theorem buildItem_durability_untouched (w : World) (d : RawDesc)
    (c : RawComps) (b : Item) (hc : d.components = some c)
    (hdur : c.durability = none) (h : buildItem w d = .ok b) :
    ∃ info, w.typeInfo d.typeId = some info ∧
      b.durability = (freshItem d.typeId info).durability := by
  unfold buildItem at h
  cases hT : w.typeInfo d.typeId with
  | none => rw [hT] at h; cases h
  | some info =>
    rw [hT, hc] at h
    simp only [hdur] at h
    refine ⟨info, rfl, ?_⟩
    cases hEe : c.enchantable with
    | none =>
      rw [hEe] at h
      simp only at h
      cases h
      rw [foldAssign_durability]
    | some l =>
      rw [hEe] at h
      simp only at h
      cases hite : (d.props.foldl (fun it kv => assignProp it kv.1 kv.2)
          (freshItem d.typeId info)).enchantable with
      | none => rw [hite] at h; cases h
      | some cur =>
        rw [hite] at h
        simp only at h
        cases h
        show (d.props.foldl (fun it kv => assignProp it kv.1 kv.2)
          (freshItem d.typeId info)).durability = _
        rw [foldAssign_durability]

/-- C6: a captured descriptor carries an `enchantable` /
`durability` component field exactly when the live item had the
capability; restoring a descriptor whose components carry no
`durability` field leaves the fresh item's damage untouched. -/
theorem c6_capability_presence (w : World) (it : Item) (d : RawDesc)
    (c : RawComps) (b : Item) :
    (∃ c0, (captureItem it).components = some c0
      ∧ c0.enchantable.isSome = it.enchantable.isSome
      ∧ c0.durability.isSome = it.durability.isSome) ∧
    (d.components = some c → c.durability = none → buildItem w d = .ok b →
      ∃ info, w.typeInfo d.typeId = some info ∧
        b.durability = (freshItem d.typeId info).durability) :=
  ⟨⟨⟨it.enchantable, it.durability⟩, rfl, rfl, rfl⟩,
   fun hc hdur h => buildItem_durability_untouched w d c b hc hdur h⟩

/-- Evaluation of `buildItem` on a descriptor without a `components` object throws
(`data.components.enchantable` on `undefined`). -/
theorem buildItem_no_components (w : World) (d : RawDesc)
    (h : d.components = none) : buildItem w d = .error () := by
  unfold buildItem
  cases hT : w.typeInfo d.typeId with
  | none => rfl
  | some info => simp [h]

/-- C9: every non-null descriptor written by `saveInventory` has a
`components` object (also when both capability fields are absent), and
`loadInventory` dereferences it unconditionally: a non-null descriptor
lacking `components` makes the reconstruction, and with it the slot's
restoration, fail. -/
theorem c9_components_object (a : Actor) (invName : String) (st : Store)
    (w : World) (d : RawDesc) (items : List RawSlot) (i : Nat)
    (act : Actor) :
    (∀ sl dsc, (sl ∈ (saveInventory a invName st).2.2.1 ∨
        sl ∈ (saveInventory a invName st).2.2.2) → sl = .desc dsc →
      dsc.components.isSome = true) ∧
    (d.components = none → buildItem w d = .error ()) ∧
    (d.components = none → items.get? i = some (.desc d) →
      invStep w items i act = .error act) := by
  refine ⟨?_, fun h => buildItem_no_components w d h, fun h hget => ?_⟩
  · intro sl dsc hmem hdesc
    have hcap : ∀ v : Option Item, captureSlot v = sl →
        dsc.components.isSome = true := by
      intro v hv
      cases v with
      | none => rw [← hv] at hdesc; cases hdesc
      | some it =>
        rw [← hv] at hdesc
        cases hdesc
        rfl
    rcases hmem with hmem | hmem
    · simp only [saveInventory] at hmem
      rw [List.mem_map] at hmem
      obtain ⟨v, _, hv⟩ := hmem
      exact hcap v hv
    · simp only [saveInventory] at hmem
      rw [List.mem_map] at hmem
      obtain ⟨s, _, hv⟩ := hmem
      exact hcap (a.equip.get s) hv
  · unfold invStep
    rw [hget]
    simp [buildItem_no_components w d h]

/-! ### Dynamic property copying (C10) -/

/-- The four native `ItemStack` fields the descriptor schema names. -/
def isSchemaKey (k : String) : Bool :=
  k = "amount" || k = "keepOnDeath" || k = "lockMode" || k = "nameTag"

/-- Lookup in a JS-object property list (keys unique by construction
of `upsert`). -/
def findProp (l : List (String × PropV)) (k : String) : Option PropV :=
  (l.find? (fun kv => kv.1 = k)).map Prod.snd

/-- The value of the last (winning) assignment of key `k` in an
in-order assignment list. -/
def lastAssign : List (String × PropV) → String → Option PropV
  | [], _ => none
  | kv :: rest, k =>
    match lastAssign rest k with
    | some v => some v
    | none => if kv.1 = k then some kv.2 else none

theorem findProp_upsert_self (l : List (String × PropV)) (k : String)
    (v : PropV) : findProp (upsertProp l k v) k = some v := by
  induction l with
  | nil => simp [upsertProp, findProp, List.find?]
  | cons kv rest ih =>
    by_cases hk : kv.1 = k
    · simp [upsertProp, hk, findProp, List.find?]
    · simp only [upsertProp, hk, if_neg]
      simpa [findProp, List.find?, hk] using ih

theorem findProp_upsert_other (l : List (String × PropV)) (k k' : String)
    (v : PropV) (h : k' ≠ k) :
    findProp (upsertProp l k v) k' = findProp l k' := by
  induction l with
  | nil => simp [upsertProp, findProp, List.find?, Ne.symm h]
  | cons kv rest ih =>
    by_cases hk : kv.1 = k
    · subst hk
      simp [upsertProp, findProp, List.find?, Ne.symm h]
    · simp only [upsertProp, hk, if_neg]
      by_cases hk' : kv.1 = k'
      · simp [findProp, List.find?, hk']
      · simpa [findProp, List.find?, hk'] using ih

theorem assignProp_extraProps (it : Item) (k : String) (v : PropV) :
    (assignProp it k v).extraProps =
      if isSchemaKey k then it.extraProps
      else upsertProp it.extraProps k v := by
  unfold assignProp isSchemaKey
  split_ifs with h1 h2 h3 h4 <;> simp_all <;> cases v <;> rfl

theorem foldAssign_extraProps (props : List (String × PropV)) :
    ∀ (it : Item) (k : String), isSchemaKey k = false →
      findProp ((props.foldl (fun it kv => assignProp it kv.1 kv.2)
          it).extraProps) k =
        (match lastAssign props k with
         | some v => some v
         | none => findProp it.extraProps k) := by
  induction props with
  | nil => intro it k _; simp [lastAssign]
  | cons kv rest ih =>
    intro it k hk
    show findProp ((rest.foldl _ (assignProp it kv.1 kv.2)).extraProps) k = _
    rw [ih (assignProp it kv.1 kv.2) k hk]
    cases hL : lastAssign rest k with
    | some v => simp [lastAssign, hL]
    | none =>
      simp only [lastAssign, hL]
      rw [assignProp_extraProps]
      by_cases hks : isSchemaKey kv.1 = true
      · have hne : ¬ kv.1 = k := by
          intro hc; rw [hc, hk] at hks; cases hks
        simp [hks, hne]
      · simp only [Bool.not_eq_true] at hks
        simp only [hks, if_neg, Bool.false_eq_true, not_false_iff]
        by_cases hkk : kv.1 = k
        · subst hkk
          simp [findProp_upsert_self]
        · have hoth := findProp_upsert_other it.extraProps kv.1 k kv.2
            (Ne.symm hkk)
          simp [hkk, hoth]

/-- The `props` copy loop is the only stage of `buildItem` that touches
expando properties. -/
theorem buildItem_extraProps (w : World) (d : RawDesc) (b : Item)
    (h : buildItem w d = .ok b) :
    ∃ info, w.typeInfo d.typeId = some info ∧
      b.extraProps = (d.props.foldl (fun it kv => assignProp it kv.1 kv.2)
        (freshItem d.typeId info)).extraProps := by
  unfold buildItem at h
  cases hT : w.typeInfo d.typeId with
  | none => rw [hT] at h; cases h
  | some info =>
    rw [hT] at h
    refine ⟨info, rfl, ?_⟩
    cases hc : d.components with
    | none => rw [hc] at h; cases h
    | some comps =>
      rw [hc] at h
      simp only at h
      cases hEe : comps.enchantable with
      | none =>
        rw [hEe] at h
        simp only at h
        cases hdd : comps.durability with
        | none => rw [hdd] at h; simp only at h; cases h; rfl
        | some dm =>
          rw [hdd] at h
          simp only at h
          by_cases h0 : dm = 0
          · rw [if_pos h0] at h; cases h; rfl
          · rw [if_neg h0] at h
            cases hite : (d.props.foldl (fun it kv => assignProp it kv.1 kv.2)
                (freshItem d.typeId info)).durability with
            | none => rw [hite] at h; cases h
            | some cur => rw [hite] at h; simp only at h; cases h; rfl
      | some l =>
        rw [hEe] at h
        simp only at h
        cases hitE : (d.props.foldl (fun it kv => assignProp it kv.1 kv.2)
            (freshItem d.typeId info)).enchantable with
        | none => rw [hitE] at h; cases h
        | some cur =>
          rw [hitE] at h
          simp only at h
          cases hdd : comps.durability with
          | none => rw [hdd] at h; simp only at h; cases h; rfl
          | some dm =>
            rw [hdd] at h
            simp only at h
            by_cases h0 : dm = 0
            · rw [if_pos h0] at h; cases h; rfl
            · rw [if_neg h0] at h
              cases hitD : (({ (d.props.foldl
                    (fun it kv => assignProp it kv.1 kv.2)
                    (freshItem d.typeId info)) with
                  lore := d.lore,
                  enchantable := some (cur ++ l) } : Item)).durability with
              | none => rw [hitD] at h; cases h
              | some cur2 => rw [hitD] at h; simp only at h; cases h; rfl

/-- C10: `loadInventory` copies every enumerable `props` key onto
the reconstructed item: a non-schema key present in the persisted
payload ends up as a property of the item (last assignment wins). -/
theorem c10_all_props_assigned (w : World) (d : RawDesc) (b : Item)
    (k : String) (hb : buildItem w d = .ok b)
    (hk : isSchemaKey k = false) :
    findProp b.extraProps k = lastAssign d.props k := by
  obtain ⟨info, hT, hextra⟩ := buildItem_extraProps w d b hb
  rw [hextra, foldAssign_extraProps d.props (freshItem d.typeId info) k hk]
  cases lastAssign d.props k <;> simp [findProp, freshItem, List.find?]

/-! ### Parse failures and missing keys (C3) -/

/-- C3 amended: a key that was never written is read as the
empty sequence (the `?? "[]"` fallback), so the load behaves exactly as
against an empty store; but a present, unparsable string makes
`JSON.parse` throw and the exception propagates: the load returns with
the actor untouched. -/
theorem loadInventory_fst_congr (w : World) (a : Actor) (invName : String)
    (st st' : Store)
    (h1 : st ("inventory:" ++ invName) = st' ("inventory:" ++ invName))
    (h2 : st ("armor:" ++ invName) = st' ("armor:" ++ invName)) :
    (loadInventory w a invName st).1 =
      (loadInventory w a invName st').1 := by
  unfold loadInventory getDynamicProperty
  rw [h1, h2]
  cases hp1 : parseProp (st' ("inventory:" ++ invName)) with
  | error e => rfl
  | ok items =>
    simp only
    cases hp2 : parseProp (st' ("armor:" ++ invName)) with
    | error e => rfl
    | ok worn =>
      simp only
      cases iterSteps (armorStep w worn)
          (List.range listOfEquipmentSlots.length) a with
      | error a1 => rfl
      | ok a1 =>
        simp only
        cases iterSteps (invStep w items) (List.range a.inv.length) a1 <;> rfl

theorem c3_parse_behavior (w : World) (a : Actor) (invName : String)
    (st : Store) :
    (st ("inventory:" ++ invName) = none → st ("armor:" ++ invName) = none →
      (loadInventory w a invName st).1
        = (loadInventory w a invName (fun _ => none)).1) ∧
    (st ("inventory:" ++ invName) = some .malformed →
      loadInventory w a invName st = (.error a, st)) ∧
    (∀ items, st ("inventory:" ++ invName) = some (.jarr items) →
      st ("armor:" ++ invName) = some .malformed →
      loadInventory w a invName st = (.error a, st)) := by
  refine ⟨?_, ?_, ?_⟩
  · intro h1 h2
    exact loadInventory_fst_congr w a invName st (fun _ => none)
      (by rw [h1]) (by rw [h2])
  · intro h1
    unfold loadInventory getDynamicProperty
    rw [h1]
    rfl
  · intro items h1 h2
    unfold loadInventory getDynamicProperty
    rw [h1, h2]
    rfl

/-! ### Abort on an unresolvable type (C2) -/

theorem wrOfArmor_nil (w : World) (i : Nat) :
    wrOfArmor w [] i = .cset i none := rfl

/-- Models the throw of `new ItemStack(typeId)` when the type does not resolve. -/
theorem buildItem_unresolvable (w : World) (d : RawDesc)
    (h : w.typeInfo d.typeId = none) : buildItem w d = .error () := by
  unfold buildItem
  rw [h]

theorem wrOfInv_shape (w : World) (items : List RawSlot) (i : Nat) :
    (∃ v, wrOfInv w items i = .cset i v) ∨ wrOfInv w items i = .fail := by
  rcases hg : items.get? i with _ | ⟨_ | d⟩
  · exact .inl ⟨none, by unfold wrOfInv; rw [hg]⟩
  · exact .inl ⟨none, by unfold wrOfInv; rw [hg]⟩
  · rcases hb : buildItem w d with e | b
    · refine .inr ?_
      unfold wrOfInv
      rw [hg]
      simp [hb]
    · refine .inl ⟨some b, ?_⟩
      unfold wrOfInv
      rw [hg]
      simp [hb]

theorem runW_fail_at (ws1 ws2 : List Wr) (a : Actor)
    (h1 : ∀ wr ∈ ws1, wrOk a.inv.length wr = true) :
    runW (ws1 ++ Wr.fail :: ws2) a = .error (applyAll ws1 a) := by
  rw [runW_append, runW_ok_of_wrOk ws1 a h1]
  rfl

theorem lastCset_none_of_lt (ws : List Wr) (j : Nat)
    (h : ∀ i v, Wr.cset i v ∈ ws → i < j) : lastCset ws j = none := by
  induction ws with
  | nil => rfl
  | cons wr ws ih =>
    rw [lastCset_cons, ih (fun i v hm => h i v (List.mem_cons_of_mem wr hm))]
    cases wr with
    | cset i v =>
      have := h i v (List.mem_cons_self _ _)
      simp only
      rw [if_neg (by omega)]
    | eset s it => rfl
    | fail => rfl

/-- C2 amended: `loadInventory` does not isolate slot failures:
when the persisted inventory sequence holds, at an index `k` past the
armor-loop range, a descriptor whose `typeId` does not resolve (and
every earlier slot restores without throwing), the `ItemStack`
constructor's exception propagates out of the loop: the call returns
exceptionally and no slot from `k` onward is restored. -/
theorem c2_unresolvable_type_aborts (w : World) (a : Actor)
    (invName : String) (st : Store) (items : List RawSlot) (k : Nat)
    (d : RawDesc)
    (hI : st ("inventory:" ++ invName) = some (.jarr items))
    (hA : st ("armor:" ++ invName) = none)
    (hk5 : 5 ≤ k) (hkn : k < a.inv.length)
    (hbad : items.get? k = some (.desc d))
    (hfail : w.typeInfo d.typeId = none)
    (hgood : ∀ j, j < k → wrOfInv w items j ≠ .fail) :
    ∃ aP, (loadInventory w a invName st).1 = .error aP ∧
      ∀ j, k ≤ j → aP.inv.get? j = a.inv.get? j := by
  have hP1 : parseProp (getDynamicProperty st ("inventory:" ++ invName))
      = .ok items := by rw [getDynamicProperty, hI]; rfl
  have hP2 : parseProp (getDynamicProperty st ("armor:" ++ invName))
      = .ok [] := by rw [getDynamicProperty, hA]; rfl
  rw [loadInventory_run_parsed w a invName st items [] hP1 hP2]
  have hfk : wrOfInv w items k = .fail := by
    unfold wrOfInv
    rw [hbad]
    simp [buildItem_unresolvable w d hfail]
  -- split the inventory range at the failing index
  have hsplit : List.range a.inv.length =
      List.range k ++ List.map (fun x => k + x)
        (List.range (a.inv.length - k)) := by
    rw [← List.range_add]
    congr 1
    omega
  have hone : a.inv.length - k = (a.inv.length - k - 1) + 1 := by omega
  have hsucc : List.range (a.inv.length - k) =
      0 :: List.map Nat.succ (List.range (a.inv.length - k - 1)) := by
    conv_lhs => rw [hone]
    rw [List.range_succ_eq_map]
  rw [hsplit, hsucc]
  simp only [List.map_append, List.map_cons, Nat.add_zero]
  rw [hfk]
  set ws1 := (List.range listOfEquipmentSlots.length).map (wrOfArmor w [])
    ++ (List.range k).map (wrOfInv w items) with hws1
  set ws2 := List.map (wrOfInv w items)
    (List.map (fun x => k + x) (List.map Nat.succ
      (List.range (a.inv.length - k - 1)))) with hws2
  have hassoc : ws1 ++ Wr.fail :: ws2 =
      (List.range listOfEquipmentSlots.length).map (wrOfArmor w [])
      ++ ((List.range k).map (wrOfInv w items) ++ Wr.fail :: ws2) := by
    rw [hws1, List.append_assoc]
  have hok1 : ∀ wr ∈ ws1, wrOk a.inv.length wr = true := by
    intro wr hmem
    rw [hws1] at hmem
    rcases List.mem_append.1 hmem with hmem | hmem
    · rw [List.mem_map] at hmem
      obtain ⟨i, hi, rfl⟩ := hmem
      rw [List.mem_range] at hi
      have hi5 : i < 5 := by simpa [listOfEquipmentSlots] using hi
      rw [wrOfArmor_nil]
      simp [wrOk]
      omega
    · rw [List.mem_map] at hmem
      obtain ⟨i, hi, rfl⟩ := hmem
      rw [List.mem_range] at hi
      rcases wrOfInv_shape w items i with ⟨v, hv⟩ | hv
      · rw [hv]; simp [wrOk]; omega
      · exact absurd hv (hgood i (by omega))
  rw [← hassoc, runW_fail_at ws1 ws2 a hok1]
  refine ⟨applyAll ws1 a, rfl, ?_⟩
  intro j hj
  by_cases hjn : j < a.inv.length
  · rw [applyAll_inv_get? ws1 a j hjn,
      lastCset_none_of_lt ws1 j ?_]
    intro i v hmem
    rw [hws1] at hmem
    rcases List.mem_append.1 hmem with hmem | hmem
    · rw [List.mem_map] at hmem
      obtain ⟨i', hi', heq⟩ := hmem
      rw [List.mem_range] at hi'
      have hi5 : i' < 5 := by simpa [listOfEquipmentSlots] using hi'
      rw [wrOfArmor_nil] at heq
      cases heq
      omega
    · rw [List.mem_map] at hmem
      obtain ⟨i', hi', heq⟩ := hmem
      rw [List.mem_range] at hi'
      rcases wrOfInv_shape w items i' with ⟨v', hv⟩ | hv
      · rw [hv] at heq; cases heq; omega
      · rw [hv] at heq; cases heq
  · have h1 : (applyAll ws1 a).inv.get? j = none :=
      List.get?_eq_none.2 (by rw [applyAll_inv_length]; omega)
    have h2 : a.inv.get? j = none := List.get?_eq_none.2 (by omega)
    rw [h1, h2]

/-! ### Concrete fixtures -/

/-- A small item registry: an apple (no capabilities), a sword and a
helmet (enchantable and durable); any other id is unresolvable. -/
def w0 : World :=
  ⟨fun t =>
    if t = "a:apple" then some ⟨false, false⟩
    else if t = "a:sword" then some ⟨true, true⟩
    else if t = "a:helmet" then some ⟨true, true⟩
    else none⟩

def apple : Item :=
  ⟨"a:apple", 3, false, "none", none, [], none, none, []⟩

def sword : Item :=
  ⟨"a:sword", 1, true, "slot", some "Excalibur", ["legend"],
   some [("sharpness", 5)], some 7, []⟩

def helmet : Item :=
  ⟨"a:helmet", 1, false, "none", none, [], some [], some 0, []⟩

def equip0 : Equip := ⟨some helmet, none, none, none, none⟩

/-- An actor wearing the helmet, with a six-slot container. -/
def a0 : Actor :=
  ⟨[some apple, some sword, none, none, none, some apple], equip0⟩

def emptyStore : Store := fun _ => none

/-- State of `a0` after a load against an empty store: container cleared, worn
equipment untouched. -/
def aCleared : Actor := ⟨[none, none, none, none, none, none], equip0⟩

/-- A well-formed descriptor whose type no longer resolves. -/
def badDesc : RawDesc :=
  ⟨"a:gone",
   [("amount", .num 1), ("keepOnDeath", .bool false),
    ("lockMode", .str "none")],
   [], some ⟨none, none⟩⟩

/-- Store whose inventory payload fails to parse. -/
def stMal : Store :=
  fun k => if k = "inventory:s" then some .malformed else none

/-- Store with a bad descriptor at inventory index 0 and a resolvable
one at index 1; no armor key. -/
def stBad : Store :=
  fun k =>
    if k = "inventory:s" then
      some (.jarr [.desc badDesc, .desc (captureItem apple)])
    else none

/-- The state at the throw for `stBad` / `stNullArmor` on `a0`: the
armor pass cleared container slots 0–4, the inventory pass threw at
slot 0. -/
def aAborted : Actor :=
  ⟨[none, none, none, none, none, some apple], equip0⟩

/-- Store with an all-null armor sequence and a bad inventory slot 0. -/
def stNullArmor : Store :=
  fun k =>
    if k = "armor:s" then
      some (.jarr [.nullSlot, .nullSlot, .nullSlot, .nullSlot, .nullSlot])
    else if k = "inventory:s" then some (.jarr [.desc badDesc])
    else none

def itemsBad5 : List RawSlot :=
  [.nullSlot, .nullSlot, .nullSlot, .nullSlot, .nullSlot, .desc badDesc]

/-- Store with the bad descriptor at inventory index 5. -/
def stBadAt5 : Store :=
  fun k => if k = "inventory:s" then some (.jarr itemsBad5) else none

/-- A non-null descriptor with no `components` field. -/
def dNoComp : RawDesc := ⟨"a:apple", [], [], none⟩

/-- A descriptor carrying a key outside the schema. -/
def d10 : RawDesc :=
  ⟨"a:apple", [("amount", .num 2), ("foo", .str "bar")], [],
   some ⟨none, none⟩⟩

def b10 : Item :=
  ⟨"a:apple", 2, false, "none", none, [], none, none,
   [("foo", .str "bar")]⟩

/-! ### Witnesses, counterexamples and concrete evaluations -/

theorem c1_roundtrip_witness :
    validActor w0 a0 = true ∧ 5 ≤ a0.inv.length ∧
    ∃ a', (loadInventory w0 a0 "s" (saveInventory a0 "s" emptyStore).2.1).1
        = .ok a' ∧
      a'.inv.length = a0.inv.length ∧
      (∀ s : EquipSlot, obsSlotEq (a'.equip.get s) (a0.equip.get s)) ∧
      ∀ j : Nat, obsSlotEq (a'.inv.getD j none) (a0.inv.getD j none) :=
  ⟨by decide, by decide,
   c1_save_load_roundtrip w0 a0 "s" emptyStore (by decide) (by decide)⟩

/-- The claim that a failed `ItemStack` construction is contained to
its slot is false on the code: with a bad descriptor at slot 0 and a
good one at slot 1, the whole restore returns exceptionally and slot 1
holds the `null` written by the armor pass, not the good item. -/
theorem c2_counterexample :
    (loadInventory w0 a0 "s" stBad).1 = .error aAborted ∧
      aAborted.inv.getD 1 none = none := ⟨rfl, rfl⟩

theorem c2_abort_witness :
    stBadAt5 ("inventory:" ++ "s") = some (.jarr itemsBad5) ∧
    stBadAt5 ("armor:" ++ "s") = none ∧
    (5 : Nat) ≤ 5 ∧ 5 < a0.inv.length ∧
    itemsBad5.get? 5 = some (.desc badDesc) ∧
    w0.typeInfo badDesc.typeId = none ∧
    (∀ j, j < 5 → wrOfInv w0 itemsBad5 j ≠ .fail) ∧
    ∃ aP, (loadInventory w0 a0 "s" stBadAt5).1 = .error aP ∧
      ∀ j, 5 ≤ j → aP.inv.get? j = a0.inv.get? j :=
  ⟨rfl, rfl, by decide, by decide, rfl, rfl, by decide,
   c2_unresolvable_type_aborts w0 a0 "s" stBadAt5 itemsBad5 5 badDesc
     rfl rfl (by decide) (by decide) rfl rfl (by decide)⟩

/-- The claim that an unparsable persisted string is treated as a
missing snapshot is false on the code: `JSON.parse` throws and the
exception escapes (while a truly missing key loads fine). -/
theorem c3_counterexample :
    (loadInventory w0 a0 "s" stMal).1 = .error a0 ∧
      (loadInventory w0 a0 "s" emptyStore).1 = .ok aCleared :=
  ⟨rfl, rfl⟩

theorem c3_parse_witness :
    stMal ("inventory:" ++ "s") = some .malformed ∧
      loadInventory w0 a0 "s" stMal = (.error a0, stMal) :=
  ⟨rfl, (c3_parse_behavior w0 a0 "s" stMal).2.1 rfl⟩

/-- C4 defect evaluation: with a persisted all-null armor
sequence, the worn helmet stays equipped (the slot is not cleared) and
the armor pass nulls container slots instead: container slot 1 is
`null` at the throw point of the aborted inventory pass, though the
actor held a sword there. -/
theorem c4_null_armor_defect :
    (loadInventory w0 a0 "s" stNullArmor).1 = .error aAborted ∧
      aAborted.equip.get .head = some helmet ∧
      aAborted.inv.getD 1 none = none ∧
      a0.inv.getD 1 none = some sword :=
  ⟨rfl, rfl, rfl, rfl⟩

/-- C5 defect evaluation: loading a never-snapshotted
`(name, storage)` pair does not throw and clears every container slot,
but the worn equipment is left in place rather than cleared. -/
theorem c5_missing_snapshot_defect :
    (loadInventory w0 a0 "s" emptyStore).1 = .ok aCleared ∧
      aCleared.inv = [none, none, none, none, none, none] ∧
      aCleared.equip.get .head = some helmet :=
  ⟨rfl, rfl, rfl⟩

theorem c6_capability_witness :
    (captureItem apple).components = some ⟨none, none⟩ ∧
    buildItem w0 (captureItem apple) = .ok (strip apple) ∧
    ∃ info, w0.typeInfo (captureItem apple).typeId = some info ∧
      (strip apple).durability
        = (freshItem (captureItem apple).typeId info).durability := by
  have hb : buildItem w0 (captureItem apple) = .ok (strip apple) := rfl
  exact ⟨rfl, hb,
    (c6_capability_presence w0 apple (captureItem apple) ⟨none, none⟩
      (strip apple)).2 rfl rfl hb⟩

theorem c7_idempotence_witness :
    (loadInventory w0 a0 "s" emptyStore).1 = .ok aCleared ∧
      (loadInventory w0 aCleared "s" emptyStore).1 = .ok aCleared := by
  have hload : (loadInventory w0 a0 "s" emptyStore).1 = .ok aCleared := rfl
  exact ⟨hload,
    (c7_load_readonly_idempotent w0 a0 "s" emptyStore).2 aCleared hload⟩

theorem c8_frame_witness :
    (saveInventory a0 "s" emptyStore).1 = a0 ∧
      (saveInventory a0 "s" emptyStore).2.1 "other" = emptyStore "other" :=
  ⟨(c8_save_frame a0 "s" emptyStore).1,
   (c8_save_frame a0 "s" emptyStore).2.2.2 "other" (by decide) (by decide)⟩

theorem c9_components_witness :
    dNoComp.components = none ∧
      invStep w0 [.desc dNoComp] 0 a0 = .error a0 :=
  ⟨rfl,
   (c9_components_object a0 "s" emptyStore w0 dNoComp [.desc dNoComp] 0
     a0).2.2 rfl rfl⟩

theorem c10_props_witness :
    buildItem w0 d10 = .ok b10 ∧ isSchemaKey "foo" = false ∧
      findProp b10.extraProps "foo" = lastAssign d10.props "foo" := by
  have hb : buildItem w0 d10 = .ok b10 := rfl
  exact ⟨hb, by decide,
    c10_all_props_assigned w0 d10 b10 "foo" hb (by decide)⟩

end InvPersist
